import Mathlib

set_option maxRecDepth 16384

/-!
Verification development for the AkamaiOPEN-edgegrid-rust repository.

The Rust sources (src/auth.rs, src/config.rs, src/client.rs, src/error.rs)
are shallowly embedded below.  Rust `String` values are embedded as Lean
`String` (a structure over `List Char` in this toolchain); Rust byte slices
(`&[u8]`) are embedded as `List Nat` with every byte strictly below 256.
Rust string primitives (`trim`, `to_lowercase`, `starts_with`, ...) are
given explicit models over the character list so that their behaviour is
visible in the embedding.  The crypto dependencies (`sha2`, `hmac`,
`base64`) are embedded as executable reference implementations of the
corresponding algorithms, and `chrono`/`reqwest`/`http` behaviour that the
code relies on is modelled where used, with a comment naming the source.
-/

namespace EdgeGrid

/-! ## Models of the Rust `str` primitives used by the sources -/

/-- Model of Rust `char::is_whitespace` restricted to the characters that
actually occur in the claims (ASCII whitespace).  Mirrors
`Char.isWhitespace`. -/
def isWs (c : Char) : Bool :=
  c = ' ' || c = '\t' || c = '\n' || c = '\r'

/-- Model of Rust `str::trim` on a character list: drop leading and
trailing whitespace. -/
def trimChars (cs : List Char) : List Char :=
  ((cs.dropWhile isWs).reverse.dropWhile isWs).reverse

/-- Model of Rust `str::trim`. -/
def rTrim (s : String) : String :=
  String.mk (trimChars s.data)

/-- Model of Rust `str::to_lowercase` (per-character lowering; identical to
Rust on ASCII data). -/
def rToLower (s : String) : String :=
  String.mk (s.data.map Char.toLower)

/-- Model of Rust `str::to_uppercase` (per-character raising; identical to
Rust on ASCII data). -/
def rToUpper (s : String) : String :=
  String.mk (s.data.map Char.toUpper)

/-- Model of Rust `str::starts_with(prefixStr)`. -/
def rStartsWith (s p : String) : Bool :=
  p.data.isPrefixOf s.data

/-- Model of Rust `str::starts_with(c)` for a single character. -/
def startsWithChar (s : String) (c : Char) : Bool :=
  match s.data with
  | [] => false
  | d :: _ => d = c

/-- Model of Rust `str::ends_with(c)` for a single character. -/
def endsWithChar (s : String) (c : Char) : Bool :=
  match s.data.getLast? with
  | none => false
  | some d => d = c

/-- Model of Rust `str::ends_with(suffixStr)`. -/
def rEndsWith (s p : String) : Bool :=
  p.data.isSuffixOf s.data

/-- Model of Rust `str::find(c)`: index of the first occurrence. -/
def findIdxChar (s : String) (c : Char) : Option Nat :=
  s.data.findIdx? (· = c)

/-- Model of Rust `String::pop` (used on ASCII hosts, where popping the
last byte and the last character agree). -/
def popChar (s : String) : String :=
  String.mk s.data.dropLast

/-- Model of Rust `str::is_empty` after `trim`, i.e. `trim().is_empty()`. -/
def trimIsEmpty (s : String) : Bool :=
  trimChars s.data = ([] : List Char)

/-! ## Bytes and UTF-8

Rust `str::as_bytes` yields the UTF-8 encoding; we model bytes as `Nat`
values below 256. -/

/-- UTF-8 encoding of one character, as byte values. -/
def utf8EncodeChar (c : Char) : List Nat :=
  let n := c.toNat
  if n < 128 then [n]
  else if n < 2048 then [192 + n / 64, 128 + n % 64]
  else if n < 65536 then [224 + n / 4096, 128 + n / 64 % 64, 128 + n % 64]
  else [240 + n / 262144, 128 + n / 4096 % 64, 128 + n / 64 % 64, 128 + n % 64]

/-- Model of Rust `str::as_bytes` (UTF-8). -/
def utf8Bytes (s : String) : List Nat :=
  s.data.flatMap utf8EncodeChar

/-! ## SHA-256 (embedding of the `sha2` crate's `Sha256`)

A direct executable rendering of FIPS 180-4, over byte lists, with 32-bit
words represented as `Nat` reduced modulo `2 ^ 32`. -/

/-- Truncate to a 32-bit word. -/
def w32 (n : Nat) : Nat := n % 4294967296

/-- 32-bit right rotation. -/
def rotr32 (x n : Nat) : Nat := w32 (x >>> n ||| x <<< (32 - n))

/-- The SHA-256 round constants (FIPS 180-4 section 4.2.2, in decimal). -/
def sha256K : List Nat :=
  [1116352408, 1899447441, 3049323471, 3921009573,
   961987163, 1508970993, 2453635748, 2870763221,
   3624381080, 310598401, 607225278, 1426881987,
   1925078388, 2162078206, 2614888103, 3248222580,
   3835390401, 4022224774, 264347078, 604807628,
   770255983, 1249150122, 1555081692, 1996064986,
   2554220882, 2821834349, 2952996808, 3210313671,
   3336571891, 3584528711, 113926993, 338241895,
   666307205, 773529912, 1294757372, 1396182291,
   1695183700, 1986661051, 2177026350, 2456956037,
   2730485921, 2820302411, 3259730800, 3345764771,
   3516065817, 3600352804, 4094571909, 275423344,
   430227734, 506948616, 659060556, 883997877,
   958139571, 1322822218, 1537002063, 1747873779,
   1955562222, 2024104815, 2227730452, 2361852424,
   2428436474, 2756734187, 3204031479, 3329325298]

/-- The SHA-256 initial hash state (FIPS 180-4 section 5.3.3, in decimal). -/
def sha256InitH : List Nat :=
  [1779033703, 3144134277, 1013904242, 2773480762,
   1359893119, 2600822924, 528734635, 1541459225]

/-- The bit length of the message, as eight big-endian bytes. -/
def be64 (n : Nat) : List Nat :=
  [n >>> 56 % 256, n >>> 48 % 256, n >>> 40 % 256, n >>> 32 % 256,
   n >>> 24 % 256, n >>> 16 % 256, n >>> 8 % 256, n % 256]

/-- SHA-256 padding: a 0x80 byte, zeros to 56 mod 64, then the bit length. -/
def sha256Pad (msg : List Nat) : List Nat :=
  msg ++ [128] ++ List.replicate ((119 - msg.length % 64) % 64) 0 ++ be64 (8 * msg.length)

/-- Big-endian 4-byte groups to 32-bit words. -/
def bytesToWords : List Nat → List Nat
  | a :: b :: c :: d :: rest => (a * 16777216 + b * 65536 + c * 256 + d) :: bytesToWords rest
  | _ => []

/-- 32-bit words to big-endian bytes. -/
def wordsToBytes : List Nat → List Nat
  | [] => []
  | wd :: rest => wd >>> 24 % 256 :: wd >>> 16 % 256 :: wd >>> 8 % 256 :: wd % 256 :: wordsToBytes rest

/-- Append the next word of the SHA-256 message schedule. -/
def sha256ExtendStep (w : List Nat) : List Nat :=
  let n := w.length
  let g := fun i => w.getD i 0
  let s0 := rotr32 (g (n - 15)) 7 ^^^ rotr32 (g (n - 15)) 18 ^^^ (g (n - 15) >>> 3)
  let s1 := rotr32 (g (n - 2)) 17 ^^^ rotr32 (g (n - 2)) 19 ^^^ (g (n - 2) >>> 10)
  w ++ [w32 (g (n - 16) + s0 + g (n - 7) + s1)]

/-- Extend the 16 block words to the 64 schedule words. -/
def sha256Extend (w : List Nat) : List Nat :=
  (List.range 48).foldl (fun acc _ => sha256ExtendStep acc) w

/-- One round of the SHA-256 compression function, on the 8-word state. -/
def sha256Round (st : List Nat) (kw : Nat × Nat) : List Nat :=
  match st with
  | [a, b, c, d, e, f, g, h] =>
    let bigS1 := rotr32 e 6 ^^^ rotr32 e 11 ^^^ rotr32 e 25
    let ch := (e &&& f) ^^^ ((e ^^^ 4294967295) &&& g)
    let t1 := w32 (h + bigS1 + ch + kw.1 + kw.2)
    let bigS0 := rotr32 a 2 ^^^ rotr32 a 13 ^^^ rotr32 a 22
    let mj := (a &&& b) ^^^ (a &&& c) ^^^ (b &&& c)
    let t2 := w32 (bigS0 + mj)
    [w32 (t1 + t2), a, b, c, w32 (d + t1), e, f, g]
  | other => other

/-- The SHA-256 compression function for one 64-byte block. -/
def sha256Compress (hs : List Nat) (block : List Nat) : List Nat :=
  let w := sha256Extend (bytesToWords block)
  let fin := (sha256K.zip w).foldl sha256Round hs
  (hs.zip fin).map (fun p => w32 (p.1 + p.2))

/-- Fold the compression function over `n` consecutive 64-byte blocks. -/
def sha256Blocks : Nat → List Nat → List Nat → List Nat
  | 0, _, hs => hs
  | n + 1, bytes, hs => sha256Blocks n (bytes.drop 64) (sha256Compress hs (bytes.take 64))

/-- SHA-256 of a byte list (embedding of `sha2::Sha256::digest`). -/
def sha256 (msg : List Nat) : List Nat :=
  let padded := sha256Pad msg
  wordsToBytes (sha256Blocks (padded.length / 64) padded sha256InitH)

/-! ## Base64 (embedding of the `base64` crate's `STANDARD` engine) -/

/-- The standard base64 alphabet. -/
def b64Chars : List Char :=
  "ABCDEFGHIJKLMNOPQRSTUVWXYZabcdefghijklmnopqrstuvwxyz0123456789+/".data

/-- Character for a sextet value. -/
def sextetChar (n : Nat) : Char := b64Chars.getD n 'A'

/-- Standard base64 encoding with padding, over characters. -/
def base64EncodeChars : List Nat → List Char
  | [] => []
  | [a] => [sextetChar (a / 4), sextetChar (a % 4 * 16), '=', '=']
  | [a, b] => [sextetChar (a / 4), sextetChar (a % 4 * 16 + b / 16), sextetChar (b % 16 * 4), '=']
  | a :: b :: c :: rest =>
    sextetChar (a / 4) :: sextetChar (a % 4 * 16 + b / 16) ::
    sextetChar (b % 16 * 4 + c / 64) :: sextetChar (c % 64) :: base64EncodeChars rest

/-- Embedding of `BASE64.encode`. -/
def base64Encode (bs : List Nat) : String := String.mk (base64EncodeChars bs)

/-- Sextet value of an alphabet character. -/
def charSextet (c : Char) : Option Nat := b64Chars.findIdx? (· = c)

/-- Standard base64 decoding with padding, over characters. -/
def base64DecodeChars : List Char → Option (List Nat)
  | [] => some []
  | [c0, c1, '=', '='] =>
    match charSextet c0, charSextet c1 with
    | some s0, some s1 => some [s0 * 4 + s1 / 16]
    | _, _ => none
  | [c0, c1, c2, '='] =>
    match charSextet c0, charSextet c1, charSextet c2 with
    | some s0, some s1, some s2 => some [s0 * 4 + s1 / 16, s1 % 16 * 16 + s2 / 4]
    | _, _, _ => none
  | c0 :: c1 :: c2 :: c3 :: rest =>
    match charSextet c0, charSextet c1, charSextet c2, charSextet c3, base64DecodeChars rest with
    | some s0, some s1, some s2, some s3, some bs =>
      some ((s0 * 4 + s1 / 16) :: (s1 % 16 * 16 + s2 / 4) :: (s2 % 4 * 64 + s3) :: bs)
    | _, _, _, _, _ => none
  | _ => none

/-- Embedding of `BASE64.decode`. -/
def base64Decode (s : String) : Option (List Nat) := base64DecodeChars s.data

/-! ## HMAC-SHA256 (embedding of the `hmac` crate's `Hmac<Sha256>`) -/

/-- HMAC-SHA256 over byte lists (RFC 2104 with a 64-byte block). -/
def hmacSha256 (key msg : List Nat) : List Nat :=
  let k0 := if key.length > 64 then sha256 key else key
  let kp := k0 ++ List.replicate (64 - k0.length) 0
  sha256 ((kp.map (fun b => b ^^^ 92)) ++ sha256 ((kp.map (fun b => b ^^^ 54)) ++ msg))

/-! ## Embedding of `src/error.rs` -/

/-- Embedding of `EdgeGridError` (error.rs).  Variants that wrap foreign
error types in Rust carry their display string here. -/
inductive EdgeGridError where
  | Config (msg : String)
  | MissingCredential (name : String)
  | FileError (msg : String)
  | UrlError (msg : String)
  | HttpError (msg : String)
  | AuthError (msg : String)
  | InvalidSection (sec : String)
  | EnvError (msg : String)
deriving DecidableEq

/-! ## Embedding of `src/config.rs` -/

/-- Embedding of `MAX_BODY` (config.rs line 11). -/
def MAX_BODY : Nat := 131072

/-- Embedding of `EdgeGridConfig` (config.rs lines 15-33). -/
structure EdgeGridConfig where
  client_token : String
  client_secret : String
  access_token : String
  host : String
  max_body : Nat
  debug : Bool
  account_switch_key : Option String
deriving DecidableEq

/-- Embedding of `EdgeGridConfig::new` (config.rs lines 41-62). -/
def EdgeGridConfig.new (client_token client_secret access_token host : String) :
    EdgeGridConfig :=
  let host := if rStartsWith host "https://" then host else "https://" ++ host
  { client_token, client_secret, access_token, host,
    max_body := MAX_BODY, debug := false, account_switch_key := none }

/-- Embedding of `EdgeGridConfig::validate_config` (config.rs lines 107-132). -/
def validateConfig (config : EdgeGridConfig) : Except EdgeGridError EdgeGridConfig :=
  if trimIsEmpty config.client_token then .error (.MissingCredential "client_token")
  else if trimIsEmpty config.client_secret then .error (.MissingCredential "client_secret")
  else if trimIsEmpty config.access_token then .error (.MissingCredential "access_token")
  else if trimIsEmpty config.host then .error (.MissingCredential "host")
  else
    let config :=
      if !rStartsWith config.host "https://" then
        { config with host := "https://" ++ config.host }
      else config
    let config :=
      if endsWithChar config.host '/' then { config with host := popChar config.host }
      else config
    .ok config

/-- Embedding of `EdgeGridConfig::from_env` (config.rs lines 87-104); the
process environment is passed as a function from variable name to value. -/
def fromEnv (env : String → Option String) (sec : String) :
    Except EdgeGridError EdgeGridConfig :=
  let pre := if sec = "default" then "AKAMAI_" else "AKAMAI_" ++ rToUpper sec ++ "_"
  match env (pre ++ "HOST") with
  | none => .error (.EnvError (pre ++ "HOST not set"))
  | some host =>
    match env (pre ++ "CLIENT_TOKEN") with
    | none => .error (.EnvError (pre ++ "CLIENT_TOKEN not set"))
    | some client_token =>
      match env (pre ++ "CLIENT_SECRET") with
      | none => .error (.EnvError (pre ++ "CLIENT_SECRET not set"))
      | some client_secret =>
        match env (pre ++ "ACCESS_TOKEN") with
        | none => .error (.EnvError (pre ++ "ACCESS_TOKEN not set"))
        | some access_token =>
          .ok (EdgeGridConfig.new client_token client_secret access_token host)

/-- Model of Rust `str::parse::<usize>().ok()`: an optional leading plus
sign followed by one or more ASCII digits (overflow is not modelled; the
values in scope are small). -/
def parseUsize (s : String) : Option Nat :=
  let ds := match s.data with
    | '+' :: rest => rest
    | other => other
  if ds ≠ [] && ds.all (fun c => c.isDigit) then
    some (ds.foldl (fun acc c => acc * 10 + (c.toNat - 48)) 0)
  else none

/-- Model of `HashMap::insert` on an association list: replaces any
existing binding of the key. -/
def insertKV {α : Type} (l : List (String × α)) (k : String) (v : α) :
    List (String × α) :=
  (k, v) :: l.filter (fun p => p.1 ≠ k)

/-- Embedding of `parse_value` (config.rs lines 211-228): trim, strip one
layer of matching surrounding quotes, drop an inline `;` comment. -/
def parseValue (value : String) : String :=
  let value := rTrim value
  let value :=
    if (startsWithChar value '"' && endsWithChar value '"')
        || (startsWithChar value '\'' && endsWithChar value '\'') then
      String.mk (value.data.drop 1).dropLast
    else value
  match findIdxChar value ';' with
  | some commentPos => rTrim (String.mk (value.data.take commentPos))
  | none => value

/-- Embedding of `parse_section_config` (config.rs lines 193-208). -/
def parseSectionConfig (values : List (String × String)) :
    Except EdgeGridError EdgeGridConfig :=
  validateConfig
    { client_token := (values.lookup "client_token").getD ""
      client_secret := (values.lookup "client_secret").getD ""
      access_token := (values.lookup "access_token").getD ""
      host := (values.lookup "host").getD ""
      max_body := ((values.lookup "max_body").bind parseUsize).getD MAX_BODY
      debug := false
      account_switch_key := values.lookup "account_switch_key" }

/-- Split a character list at newline characters (split semantics: a
trailing newline yields a trailing empty piece). -/
def splitNl : List Char → List (List Char)
  | [] => [[]]
  | c :: rest =>
    if c = '\n' then [] :: splitNl rest
    else
      match splitNl rest with
      | [] => [[c]]
      | l :: ls => (c :: l) :: ls

/-- Model of Rust `str::lines`: split at newlines, drop the final empty
piece produced by a trailing newline, strip one trailing carriage return
from each line. -/
def rustLines (s : String) : List String :=
  let parts := splitNl s.data
  let parts := if parts.getLast? = some [] then parts.dropLast else parts
  parts.map (fun l => String.mk (if l.getLast? = some '\r' then l.dropLast else l))

/-- The loop state of `parse_edgerc` (config.rs lines 137-139). -/
structure ParseState where
  sections : List (String × EdgeGridConfig)
  currentSection : Option String
  currentConfig : List (String × String)
deriving DecidableEq

/-- Save the current section into the map, as done both at a new section
header and at end of input (config.rs lines 151-156 and 178-183): sections
whose config fails validation are silently skipped. -/
def saveSection (st : ParseState) : List (String × EdgeGridConfig) :=
  match st.currentSection with
  | some sec =>
    match parseSectionConfig st.currentConfig with
    | .ok config => insertKV st.sections sec config
    | .error _ => st.sections
  | none => st.sections

/-- One iteration of the `parse_edgerc` line loop (config.rs lines 141-176). -/
def processLine (st : ParseState) (rawLine : String) : ParseState :=
  let line := rTrim rawLine
  if line.data = [] || startsWithChar line ';' || startsWithChar line '#' then st
  else if startsWithChar line '[' && endsWithChar line ']' then
    { sections := saveSection st
      currentSection := some (String.mk (line.data.drop 1).dropLast)
      currentConfig := [] }
  else
    match findIdxChar line '=' with
    | some eqPos =>
      let key := rTrim (String.mk (line.data.take eqPos))
      let value := parseValue (String.mk (line.data.drop (eqPos + 1)))
      let key := if key = "max-body" then "max_body" else key
      { st with currentConfig := insertKV st.currentConfig key value }
    | none => st

/-- Embedding of `parse_edgerc` (config.rs lines 136-190). -/
def parseEdgerc (content : String) :
    Except EdgeGridError (List (String × EdgeGridConfig)) :=
  let st := (rustLines content).foldl processLine ⟨[], none, []⟩
  let sections := saveSection st
  if sections = [] then .error (.Config "No valid sections found in .edgerc")
  else .ok sections

/-! ## Embedding of the request-side collaborators (`reqwest`, `url`, `http`) -/

/-- Embedding of the subset of `reqwest::Method` the library distinguishes. -/
inductive Method where
  | GET
  | POST
  | PUT
  | DELETE
  | PATCH
  | HEAD
  | OPTIONS
deriving DecidableEq

/-- Model of `Method::as_str`. -/
def Method.asStr : Method → String
  | .GET => "GET"
  | .POST => "POST"
  | .PUT => "PUT"
  | .DELETE => "DELETE"
  | .PATCH => "PATCH"
  | .HEAD => "HEAD"
  | .OPTIONS => "OPTIONS"

/-- Model of `url::Url` as its observable components: `scheme()`,
`host_str()`, `path()`, `query()`. -/
structure Url where
  scheme : String
  host : Option String
  path : String
  query : Option String
deriving DecidableEq

/-- A request body as `reqwest::Body` exposes it to the signer:
`as_bytes()` returns the buffer only for an in-memory body and `None` for
a streaming body. -/
inductive Body where
  | bytes (bs : List Nat)
  | streaming
deriving DecidableEq

/-- Model of `reqwest::Body::as_bytes`. -/
def Body.asBytes : Body → Option (List Nat)
  | .bytes bs => some bs
  | .streaming => none

/-- Model of `reqwest::Request` as the signer observes it. -/
structure Request where
  method : Method
  url : Url
  headers : List (String × String)
  body : Option Body
deriving DecidableEq

/-- Model of the byte validity test of `http::HeaderValue::from_str`
(reached through `auth_header.parse()` in auth.rs line 68): tab, visible
ASCII, space, and opaque bytes 128-255 are accepted; other control bytes
and DEL are rejected. -/
def headerValueValidChar (c : Char) : Bool :=
  c = '\t' || (32 ≤ c.toNat && c.toNat ≠ 127)

/-- Model of `http::HeaderValue::from_str`. -/
def headerValueParse (s : String) : Option String :=
  if s.data.all headerValueValidChar then some s else none

/-- Model of `HeaderMap::insert`: replaces any existing entry of the name. -/
def insertHeader (headers : List (String × String)) (name value : String) :
    List (String × String) :=
  (name, value) :: headers.filter (fun p => p.1 ≠ name)

/-! ## Embedding of `src/auth.rs` -/

/-- Embedding of `EdgeGridAuth` (auth.rs lines 17-20). -/
structure EdgeGridAuth where
  config : EdgeGridConfig
deriving DecidableEq

/-- Embedding of `EdgeGridAuth::new` (auth.rs lines 24-26). -/
def EdgeGridAuth.new (config : EdgeGridConfig) : EdgeGridAuth := { config }

/-- Embedding of `EdgeGridAuth::get_headers_to_sign` (auth.rs lines 76-84):
always the empty map. -/
def EdgeGridAuth.getHeadersToSign (_auth : EdgeGridAuth) (_request : Request) :
    List (String × String) :=
  []

/-- Embedding of `EdgeGridAuth::calculate_content_hash` (auth.rs lines
87-114). -/
def EdgeGridAuth.calculateContentHash (auth : EdgeGridAuth) (request : Request) :
    Except EdgeGridError String :=
  if request.method ≠ Method.POST then .ok ""
  else
    match request.body with
    | some body =>
      match body.asBytes with
      | some bytes =>
        let bytesToHash :=
          if bytes.length > auth.config.max_body then bytes.take auth.config.max_body
          else bytes
        .ok (base64Encode (sha256 bytesToHash))
      | none => .ok ""
    | none => .ok ""

/-- The condition under which `calculate_content_hash` emits its
`log::warn!` truncation event (auth.rs lines 97-102). -/
def EdgeGridAuth.contentHashWarns (auth : EdgeGridAuth) (request : Request) : Bool :=
  request.method == Method.POST &&
    match request.body with
    | some (Body.bytes bytes) => decide (bytes.length > auth.config.max_body)
    | _ => false

/-- Lexicographic comparison of character lists by code point.  UTF-8
preserves code-point order, so this is Rust's `Ord` on `String` (which
compares the UTF-8 bytes lexicographically). -/
def lexLe : List Char → List Char → Bool
  | [], _ => true
  | _ :: _, [] => false
  | a :: as, b :: bs =>
    if a.toNat < b.toNat then true
    else if b.toNat < a.toNat then false
    else lexLe as bs

/-- Model of Rust's `Ord` on `String` (at most, `le`). -/
def strLe (a b : String) : Bool := lexLe a.data b.data

/-- Insert `a` into `l` after every element `b` with `le b a`: the
insertion step of a stable insertion sort. -/
def stableInsert {α : Type} (le : α → α → Bool) (a : α) : List α → List α
  | [] => [a]
  | b :: l => if le b a then b :: stableInsert le a l else a :: b :: l

/-- A stable insertion sort: each element is inserted behind every earlier
element whose key does not exceed its own, so elements with equal keys
keep their input order.  A stable sort's output is uniquely determined by
the comparison and the input order, so this is the embedding of Rust's
(stable) `Vec::sort_by_key`. -/
def stableSort {α : Type} (le : α → α → Bool) (l : List α) : List α :=
  l.foldl (fun acc a => stableInsert le a acc) []

/-- Embedding of `EdgeGridAuth::canonicalize_headers` (auth.rs lines
188-197): stable sort by lower-cased name, render each entry `name:value`
with the name lower-cased and the value trimmed, join with tabs. -/
def EdgeGridAuth.canonicalizeHeaders (_auth : EdgeGridAuth)
    (headers : List (String × String)) : String :=
  let sortedHeaders := stableSort (fun a b => strLe (rToLower a.1) (rToLower b.1)) headers
  String.intercalate "\t" (sortedHeaders.map (fun p => rToLower p.1 ++ ":" ++ rTrim p.2))

/-- The partially built authorization value (tokens, timestamp, nonce and
no signature) formatted by `build_data_to_sign` (auth.rs lines 167-173). -/
def authHeaderBase (config : EdgeGridConfig) (timestamp nonce : String) : String :=
  "EG1-HMAC-SHA256 client_token=" ++ config.client_token ++
    ";access_token=" ++ config.access_token ++
    ";timestamp=" ++ timestamp ++ ";nonce=" ++ nonce ++ ";"

/-- Embedding of `EdgeGridAuth::build_data_to_sign` (auth.rs lines 155-185). -/
def EdgeGridAuth.buildDataToSign (auth : EdgeGridAuth)
    (method scheme host path : String) (headersToSign : List (String × String))
    (contentHash timestamp nonce : String) : String :=
  let canonicalizedHeaders := auth.canonicalizeHeaders headersToSign
  let authHeader := authHeaderBase auth.config timestamp nonce
  rToUpper method ++ "\t" ++ scheme ++ "\t" ++ host ++ "\t" ++ path ++ "\t" ++
    canonicalizedHeaders ++ "\t" ++ contentHash ++ "\t" ++ authHeader

/-- Embedding of `EdgeGridAuth::create_signing_key` (auth.rs lines 200-206).
`Hmac::new_from_slice` accepts keys of any length, so the mapped error
branch is unreachable and the result is always `ok`. -/
def EdgeGridAuth.createSigningKey (auth : EdgeGridAuth) (timestamp : String) :
    Except EdgeGridError String :=
  .ok (base64Encode (hmacSha256 (utf8Bytes auth.config.client_secret) (utf8Bytes timestamp)))

/-- Embedding of `EdgeGridAuth::sign_data` (auth.rs lines 209-219): decode
the base64 signing key (failure becomes `AuthError`), HMAC the data with
it, base64-encode the digest.  The second `new_from_slice` cannot fail. -/
def EdgeGridAuth.signData (_auth : EdgeGridAuth) (data signingKey : String) :
    Except EdgeGridError String :=
  match base64Decode signingKey with
  | none => .error (.AuthError "base64 decode error")
  | some keyBytes => .ok (base64Encode (hmacSha256 keyBytes (utf8Bytes data)))

/-- Embedding of `EdgeGridAuth::create_auth_header` (auth.rs lines 117-152). -/
def EdgeGridAuth.createAuthHeader (auth : EdgeGridAuth) (method : String)
    (url : Url) (path : String) (headersToSign : List (String × String))
    (contentHash timestamp nonce : String) : Except EdgeGridError String :=
  let dataToSign := auth.buildDataToSign method url.scheme (url.host.getD "") path
    headersToSign contentHash timestamp nonce
  match auth.createSigningKey timestamp with
  | .error e => .error e
  | .ok signingKey =>
    match auth.signData dataToSign signingKey with
    | .error e => .error e
    | .ok signature =>
      .ok ("EG1-HMAC-SHA256 client_token=" ++ auth.config.client_token ++
        ";access_token=" ++ auth.config.access_token ++
        ";timestamp=" ++ timestamp ++ ";nonce=" ++ nonce ++
        ";signature=" ++ signature)

/-- Embedding of `EdgeGridAuth::sign_request` (auth.rs lines 35-73).  The
fresh timestamp (`create_timestamp()`) and nonce (`Uuid::new_v4()`) are
the call's nondeterministic inputs and are passed as parameters.  When the
assembled header value fails `HeaderValue` parsing, the source skips the
insertion (`if let Ok(..)` at line 68) and still returns `Ok(())`. -/
def EdgeGridAuth.signRequest (auth : EdgeGridAuth) (timestamp nonce : String)
    (request : Request) : Except EdgeGridError Request :=
  let method := request.method.asStr
  let url := request.url
  let path := url.path
  let query := url.query.getD ""
  let fullPath := if query = "" then path else path ++ "?" ++ query
  let headersToSign := auth.getHeadersToSign request
  match auth.calculateContentHash request with
  | .error e => .error e
  | .ok contentHash =>
    match auth.createAuthHeader method url fullPath headersToSign contentHash
        timestamp nonce with
    | .error e => .error e
    | .ok authHeader =>
      match headerValueParse authHeader with
      | some headerValue =>
        .ok { request with headers := insertHeader request.headers "Authorization" headerValue }
      | none => .ok request

/-- A UTC instant as `chrono` exposes it to formatting: calendar and clock
fields. -/
structure UtcDateTime where
  year : Nat
  month : Nat
  day : Nat
  hour : Nat
  minute : Nat
  second : Nat
deriving DecidableEq

/-- The field ranges `chrono` guarantees for a `Utc` datetime (`%S` can
render 60 on a leap second). -/
def UtcDateTime.valid (t : UtcDateTime) : Prop :=
  1 ≤ t.month ∧ t.month ≤ 12 ∧ 1 ≤ t.day ∧ t.day ≤ 31 ∧
    t.hour ≤ 23 ∧ t.minute ≤ 59 ∧ t.second ≤ 60

instance (t : UtcDateTime) : Decidable t.valid := by
  unfold UtcDateTime.valid; infer_instance

/-- Two-digit zero-padded rendering (chrono numeric item, `Zero` padding,
width 2; larger values print all their digits). -/
def pad2 (n : Nat) : List Char :=
  if n < 100 then [Nat.digitChar (n / 10 % 10), Nat.digitChar (n % 10)]
  else (Nat.repr n).data

/-- chrono renders `%Y` zero-padded to 4 digits; a year outside 0..=9999
is written with an explicit sign (`write!("{:+05}", year)` in
chrono::format::formatting). -/
def pad4Year (y : Nat) : List Char :=
  if y ≤ 9999 then
    [Nat.digitChar (y / 1000 % 10), Nat.digitChar (y / 100 % 10),
     Nat.digitChar (y / 10 % 10), Nat.digitChar (y % 10)]
  else '+' :: (Nat.repr y).data

/-- Embedding of `create_timestamp` (auth.rs lines 223-225): chrono
`Utc::now().format("%Y%m%dT%H:%M:%S+0000").to_string()`, with the instant
passed as a parameter. -/
def createTimestamp (t : UtcDateTime) : String :=
  String.mk (pad4Year t.year ++ pad2 t.month ++ pad2 t.day ++ ['T'] ++
    pad2 t.hour ++ [':'] ++ pad2 t.minute ++ [':'] ++ pad2 t.second ++ "+0000".data)

/-! ## Embedding of `src/client.rs` -/

/-- Split a character list at the first `://`. -/
def splitScheme : List Char → Option (List Char × List Char)
  | [] => none
  | ':' :: '/' :: '/' :: rest => some ([], rest)
  | c :: rest => (splitScheme rest).map (fun p => (c :: p.1, p.2))

/-- Model of `url::Url::parse` restricted to what the client needs: an
absolute URL with an explicit `scheme://` is split into scheme, host (up
to the first slash or question mark), path and query; a string without a
scheme separator is rejected (`RelativeUrlWithoutBase`). -/
def Url.parse (s : String) : Except EdgeGridError Url :=
  match splitScheme s.data with
  | none => .error (.UrlError "relative URL without a base")
  | some (schemeChars, rest) =>
    let hostChars := rest.takeWhile (fun c => c ≠ '/' && c ≠ '?')
    let after := rest.drop hostChars.length
    let pathChars := after.takeWhile (fun c => c ≠ '?')
    let query :=
      match after.drop pathChars.length with
      | '?' :: qs => some (String.mk qs)
      | _ => none
    .ok { scheme := String.mk schemeChars
          host := if hostChars = [] then none else some (String.mk hostChars)
          path := if pathChars = [] then "/" else String.mk pathChars
          query }

/-- Embedding of `EdgeGridClient` (client.rs lines 14-18), without the
transport handle. -/
structure EdgeGridClient where
  auth : EdgeGridAuth
  base_url : Url
deriving DecidableEq

/-- Embedding of `EdgeGridClient::new` (client.rs lines 22-46). -/
def EdgeGridClient.new (config : EdgeGridConfig) : Except EdgeGridError EdgeGridClient :=
  if trimIsEmpty config.client_token then .error (.MissingCredential "client_token")
  else if trimIsEmpty config.client_secret then .error (.MissingCredential "client_secret")
  else if trimIsEmpty config.access_token then .error (.MissingCredential "access_token")
  else if trimIsEmpty config.host then .error (.MissingCredential "host")
  else
    match Url.parse config.host with
    | .error e => .error e
    | .ok base_url => .ok { auth := EdgeGridAuth.new config, base_url }

deriving instance DecidableEq for Except

/-! ## Vocabulary used by the theorem statements -/

/-- The four identity fields of a credential set, in the order
`EdgeGridClient::new` checks them. -/
def credField (c : EdgeGridConfig) : Fin 4 → String
  | 0 => c.client_token
  | 1 => c.client_secret
  | 2 => c.access_token
  | 3 => c.host

/-- The name under which each identity field is reported. -/
def credFieldName : Fin 4 → String
  | 0 => "client_token"
  | 1 => "client_secret"
  | 2 => "access_token"
  | 3 => "host"

/-- Join lines with newline characters (no trailing newline). -/
def joinNl : List (List Char) → List Char
  | [] => []
  | [l] => l
  | l :: ls => l ++ '\n' :: joinNl ls

/-- Modelled from the spec: "rendering it as an .edgerc-style section
(key = value lines)" — the repository has no .edgerc serializer, so the
generated section of spec item 8 is modelled as a `[section]` header
followed by one `key = value` line per core field, joined by newlines. -/
def renderEdgerc (sec : String) (config : EdgeGridConfig) : String :=
  String.mk (joinNl
    [("[" ++ sec ++ "]").data,
     ("client_token = " ++ config.client_token).data,
     ("client_secret = " ++ config.client_secret).data,
     ("access_token = " ++ config.access_token).data,
     ("host = " ++ config.host).data])

/-- Conditions under which a rendered `key = value` line parses back to
the written value: nonempty, no surrounding whitespace, no newline,
carriage return or semicolon anywhere, and not wrapped in matching
quotes. -/
def fieldRoundtrips (s : String) : Bool :=
  s.data ≠ [] &&
  s.data.head?.all (fun c => !isWs c) &&
  s.data.getLast?.all (fun c => !isWs c) &&
  s.data.all (fun c => c ≠ '\n' && c ≠ '\r' && c ≠ ';') &&
  !((startsWithChar s '"' && endsWithChar s '"')
    || (startsWithChar s '\'' && endsWithChar s '\''))

/-! Sanity anchors for the embedded crypto and canonicalization: the
FIPS 180-4 test vector for the empty message, and the header example of
the repository's own unit test (auth.rs lines 246-261). -/

theorem sha256_empty_vector :
    base64Encode (sha256 []) = "47DEQpj8HBSa+/TImW+5JCeuQeRkm5NMpJWZG3hSuFU=" := by decide

theorem canonicalize_headers_unit_test :
    (EdgeGridAuth.new (EdgeGridConfig.new "t" "t" "t" "t")).canonicalizeHeaders
      [("X-Test", "value1"), ("X-Another", "value2")] = "x-another:value2\tx-test:value1" := by
  decide

/-! ## C4: non-POST methods never hash the body -/

/-- C4: for every request whose method is not POST (in particular GET),
the content hash is the empty string whether or not a body is attached;
content hashing is performed only for POST requests. -/
theorem non_post_empty_content_hash (auth : EdgeGridAuth) (request : Request)
    (h : request.method ≠ Method.POST) :
    auth.calculateContentHash request = Except.ok "" := by
  unfold EdgeGridAuth.calculateContentHash
  rw [if_pos h]

/-- Witness for the C4 theorem: a GET request carrying a body still
produces the empty content hash. -/
theorem non_post_empty_content_hash_witness :
    Method.GET ≠ Method.POST ∧
      (EdgeGridAuth.new (EdgeGridConfig.new "a" "b" "c" "d")).calculateContentHash
        ⟨Method.GET, ⟨"https", some "h", "/", none⟩, [], some (Body.bytes [1, 2, 3])⟩ =
      Except.ok "" :=
  ⟨by decide, non_post_empty_content_hash _ _ (by decide)⟩

/-! ## C10: streaming POST bodies are silently ignored by the signer -/

/-- C10: a POST whose body is not available as an in-memory byte buffer
(`Body::as_bytes()` returns `None` for streaming bodies) hashes to the
empty string with success, and the truncation warning is not raised. -/
theorem streaming_body_empty_hash (auth : EdgeGridAuth) (request : Request)
    (hm : request.method = Method.POST) (hb : request.body = some Body.streaming) :
    auth.calculateContentHash request = Except.ok "" ∧
      auth.contentHashWarns request = false := by
  constructor
  · unfold EdgeGridAuth.calculateContentHash
    rw [if_neg (by simp [hm]), hb]
    rfl
  · simp [EdgeGridAuth.contentHashWarns, hb]

/-- Witness for the C10 theorem. -/
theorem streaming_body_empty_hash_witness :
    (EdgeGridAuth.new (EdgeGridConfig.new "a" "b" "c" "d")).calculateContentHash
        ⟨Method.POST, ⟨"https", some "h", "/", none⟩, [], some Body.streaming⟩ =
      Except.ok "" ∧
      (EdgeGridAuth.new (EdgeGridConfig.new "a" "b" "c" "d")).contentHashWarns
        ⟨Method.POST, ⟨"https", some "h", "/", none⟩, [], some Body.streaming⟩ = false :=
  streaming_body_empty_hash _ _ rfl rfl

/-! ## C5: oversized POST bodies are hashed over their first max_body bytes -/

/-- C5: a POST body longer than `max_body` is hashed over only its first
`max_body` bytes and the call still succeeds; consequently two POST bodies
of lengths `max_body` and `max_body + 1` that agree on their first
`max_body` bytes produce equal content hashes. -/
theorem post_body_truncated_hash (auth : EdgeGridAuth) (r r1 r2 : Request)
    (bs b1 b2 : List Nat)
    (hm : r.method = Method.POST) (hb : r.body = some (Body.bytes bs))
    (hl : bs.length > auth.config.max_body) :
    auth.calculateContentHash r =
        Except.ok (base64Encode (sha256 (bs.take auth.config.max_body))) ∧
      (r1.method = Method.POST → r2.method = Method.POST →
        r1.body = some (Body.bytes b1) → r2.body = some (Body.bytes b2) →
        b1.length = auth.config.max_body → b2.length = auth.config.max_body + 1 →
        b2.take auth.config.max_body = b1 →
        auth.calculateContentHash r1 = auth.calculateContentHash r2) := by
  constructor
  · unfold EdgeGridAuth.calculateContentHash
    rw [if_neg (by simp [hm]), hb]
    simp only [Body.asBytes]
    rw [if_pos hl]
  · intro h1 h2 hb1 hb2 hl1 hl2 hpre
    unfold EdgeGridAuth.calculateContentHash
    rw [if_neg (by simp [h1]), if_neg (by simp [h2]), hb1, hb2]
    simp only [Body.asBytes]
    rw [if_neg (by omega), if_pos (by omega), hpre]

/-- Witness for the C5 theorem, with `max_body` set to 2: the body
`[7, 8, 9]` hashes as its prefix `[7, 8]`, and the bodies `[5, 6]` and
`[5, 6, 7]` hash identically. -/
theorem post_body_truncated_hash_witness :
    (EdgeGridAuth.new { EdgeGridConfig.new "a" "b" "c" "d" with max_body := 2 }).calculateContentHash
        ⟨Method.POST, ⟨"https", some "h", "/", none⟩, [], some (Body.bytes [7, 8, 9])⟩ =
      Except.ok (base64Encode (sha256 ([7, 8, 9].take 2))) ∧
      (EdgeGridAuth.new { EdgeGridConfig.new "a" "b" "c" "d" with max_body := 2 }).calculateContentHash
        ⟨Method.POST, ⟨"https", some "h", "/", none⟩, [], some (Body.bytes [5, 6])⟩ =
      (EdgeGridAuth.new { EdgeGridConfig.new "a" "b" "c" "d" with max_body := 2 }).calculateContentHash
        ⟨Method.POST, ⟨"https", some "h", "/", none⟩, [], some (Body.bytes [5, 6, 7])⟩ :=
  have h := post_body_truncated_hash
    (EdgeGridAuth.new { EdgeGridConfig.new "a" "b" "c" "d" with max_body := 2 })
    ⟨Method.POST, ⟨"https", some "h", "/", none⟩, [], some (Body.bytes [7, 8, 9])⟩
    ⟨Method.POST, ⟨"https", some "h", "/", none⟩, [], some (Body.bytes [5, 6])⟩
    ⟨Method.POST, ⟨"https", some "h", "/", none⟩, [], some (Body.bytes [5, 6, 7])⟩
    [7, 8, 9] [5, 6] [5, 6, 7] rfl rfl (by decide)
  ⟨h.1, h.2 rfl rfl rfl rfl (by decide) (by decide) (by decide)⟩

/-! ## C3: which construction paths establish the credential invariant -/

theorem rStartsWith_iff (s p : String) :
    rStartsWith s p = true ↔ p.data <+: s.data := by
  unfold rStartsWith
  exact List.isPrefixOf_iff_prefix

theorem rStartsWith_append (p x : String) : rStartsWith (p ++ x) p = true := by
  rw [rStartsWith_iff, String.data_append]
  exact List.prefix_append _ _

theorem data_eq_nil_trimIsEmpty (s : String) (h : s.data = []) :
    trimIsEmpty s = true := by
  unfold trimIsEmpty trimChars
  rw [h]
  rfl

theorem trimIsEmpty_false_of_mem (s : String) (c : Char) (hc : c ∈ s.data)
    (hw : isWs c = false) : trimIsEmpty s = false := by
  unfold trimIsEmpty
  rw [decide_eq_false_iff_not]
  intro h0
  unfold trimChars at h0
  rw [List.reverse_eq_nil_iff, List.dropWhile_eq_nil_iff] at h0
  have hcd : c ∈ List.dropWhile isWs s.data := by
    rcases (List.mem_append.1
        (by rw [List.takeWhile_append_dropWhile isWs s.data]; exact hc)) with hin | hin
    · exact absurd (List.mem_takeWhile_imp hin) (by simp [hw])
    · exact hin
  exact absurd (h0 c (List.mem_reverse.2 hcd)) (by simp [hw])

theorem rStartsWith_popChar (s p : String) (h : rStartsWith s p = true)
    (hne : s ≠ p) : rStartsWith (popChar s) p = true := by
  rcases (rStartsWith_iff s p).1 h with ⟨t, ht⟩
  have htne : t ≠ [] := by
    intro h0
    apply hne
    apply String.ext
    rw [← ht, h0, List.append_nil]
  rw [rStartsWith_iff]
  show p.data <+: s.data.dropLast
  rw [← ht, List.dropLast_append_of_ne_nil _ htne]
  exact List.prefix_append _ _

/-- C3 counterexample: `EdgeGridConfig::new` performs no validation at
all, so a constructed credential set can have an empty identity field and
an untrimmed one — refuting "every construction path establishes this
invariant". -/
theorem config_new_breaks_invariant :
    (EdgeGridConfig.new "" "s" "t" "h").client_token = "" ∧
      (EdgeGridConfig.new " a " "s" "t" "h").client_token = " a " := by
  constructor <;> rfl

/-- C3 amended: only `validate_config` (the `.edgerc` path) checks the
four identity fields, and it checks that they are non-whitespace-only
without trimming them; it forces an `https://` scheme onto the host
except in the corner case where the input host is exactly `https://`
(whose trailing slash is then popped).  `EdgeGridConfig::new` (and hence
`from_env`) establishes only the host scheme. -/
theorem new_host_scheme (a b d e : String) :
    rStartsWith (EdgeGridConfig.new a b d e).host "https://" = true := by
  unfold EdgeGridConfig.new
  by_cases hs : rStartsWith e "https://" = true
  · simp [hs]
  · simp only [Bool.not_eq_true] at hs
    simpa [hs] using rStartsWith_append "https://" e

theorem validated_config_invariant (c c' : EdgeGridConfig)
    (h : validateConfig c = Except.ok c') :
    trimIsEmpty c'.client_token = false ∧
      trimIsEmpty c'.client_secret = false ∧
      trimIsEmpty c'.access_token = false ∧
      trimIsEmpty c'.host = false ∧
      (c.host ≠ "https://" → rStartsWith c'.host "https://" = true) ∧
      (∀ a b d e : String, rStartsWith (EdgeGridConfig.new a b d e).host "https://" = true) := by
  unfold validateConfig at h
  by_cases h1 : trimIsEmpty c.client_token = true
  · rw [if_pos h1] at h
    exact absurd h (by simp)
  rw [if_neg h1] at h
  by_cases h2 : trimIsEmpty c.client_secret = true
  · rw [if_pos h2] at h
    exact absurd h (by simp)
  rw [if_neg h2] at h
  by_cases h3 : trimIsEmpty c.access_token = true
  · rw [if_pos h3] at h
    exact absurd h (by simp)
  rw [if_neg h3] at h
  by_cases h4 : trimIsEmpty c.host = true
  · rw [if_pos h4] at h
    exact absurd h (by simp)
  rw [if_neg h4] at h
  simp only [Bool.not_eq_true] at h1 h2 h3 h4
  have hhostdata : c.host.data ≠ [] := by
    intro h0
    rw [data_eq_nil_trimIsEmpty _ h0] at h4
    exact Bool.true_eq_false.mp h4
  by_cases hA : rStartsWith c.host "https://" = true
  · rw [if_neg (by simp [hA])] at h
    simp only [] at h
    by_cases hB : endsWithChar c.host '/' = true
    · rw [if_pos hB] at h
      simp only [Except.ok.injEq] at h
      subst h
      refine ⟨h1, h2, h3, ?_, ?_, new_host_scheme⟩
      · by_cases hhost : c.host = "https://"
        · rw [hhost]
          show trimIsEmpty (popChar "https://") = false
          decide
        · rcases (rStartsWith_iff c.host "https://").1 hA with ⟨t, ht⟩
          have htne : t ≠ [] := by
            intro h0
            apply hhost
            apply String.ext
            rw [← ht, h0, List.append_nil]
          apply trimIsEmpty_false_of_mem _ 'h'
          · show 'h' ∈ c.host.data.dropLast
            rw [← ht, List.dropLast_append_of_ne_nil _ htne]
            exact List.mem_append_left _ (by decide)
          · decide
      · intro hne
        exact rStartsWith_popChar c.host "https://" hA hne
    · rw [if_neg hB] at h
      simp only [Except.ok.injEq] at h
      subst h
      exact ⟨h1, h2, h3, h4, fun _ => hA, new_host_scheme⟩
  · have hA' : rStartsWith c.host "https://" = false := by
      revert hA
      simp
    rw [if_pos (by simp [hA'])] at h
    simp only [] at h
    have hdata2 : ("https://" ++ c.host).data = "https://".data ++ c.host.data :=
      String.data_append _ _
    by_cases hB : endsWithChar ("https://" ++ c.host) '/' = true
    · rw [if_pos hB] at h
      simp only [Except.ok.injEq] at h
      subst h
      refine ⟨h1, h2, h3, ?_, ?_, new_host_scheme⟩
      · apply trimIsEmpty_false_of_mem _ 'h'
        · show 'h' ∈ ("https://" ++ c.host).data.dropLast
          rw [hdata2, List.dropLast_append_of_ne_nil _ hhostdata]
          exact List.mem_append_left _ (by decide)
        · decide
      · intro _
        rw [rStartsWith_iff]
        show "https://".data <+: ("https://" ++ c.host).data.dropLast
        rw [hdata2, List.dropLast_append_of_ne_nil _ hhostdata]
        exact List.prefix_append _ _
    · rw [if_neg hB] at h
      simp only [Except.ok.injEq] at h
      subst h
      refine ⟨h1, h2, h3, ?_, fun _ => rStartsWith_append _ _, new_host_scheme⟩
      apply trimIsEmpty_false_of_mem _ 'h'
      · rw [hdata2]
        exact List.mem_append_left _ (by decide)
      · decide

/-- Witness for the C3 amended theorem: the host `example.com/` passes
validation, gains the scheme and loses its trailing slash. -/
theorem validated_config_invariant_witness :
    validateConfig ⟨"a", "b", "c", "example.com/", MAX_BODY, false, none⟩ =
        Except.ok ⟨"a", "b", "c", "https://example.com", MAX_BODY, false, none⟩ ∧
      (trimIsEmpty (EdgeGridConfig.mk "a" "b" "c" "https://example.com" MAX_BODY false none).client_token = false ∧
        trimIsEmpty (EdgeGridConfig.mk "a" "b" "c" "https://example.com" MAX_BODY false none).client_secret = false ∧
        trimIsEmpty (EdgeGridConfig.mk "a" "b" "c" "https://example.com" MAX_BODY false none).access_token = false ∧
        trimIsEmpty (EdgeGridConfig.mk "a" "b" "c" "https://example.com" MAX_BODY false none).host = false ∧
        ((EdgeGridConfig.mk "a" "b" "c" "example.com/" MAX_BODY false none).host ≠ "https://" →
          rStartsWith (EdgeGridConfig.mk "a" "b" "c" "https://example.com" MAX_BODY false none).host "https://" = true) ∧
        (∀ a b d e : String, rStartsWith (EdgeGridConfig.new a b d e).host "https://" = true)) :=
  ⟨by decide, validated_config_invariant _ _ (by decide)⟩

/-! ## C8: a single missing credential fails client construction by name -/

/-- C8: for a credential set in which exactly one of the four identity
fields is empty or whitespace-only, `EdgeGridClient::new` fails with a
`MissingCredential` error naming that field, before any signing attempt. -/
theorem client_new_missing_credential (c : EdgeGridConfig) (i : Fin 4)
    (h1 : trimIsEmpty (credField c i) = true)
    (h2 : ∀ j : Fin 4, j ≠ i → trimIsEmpty (credField c j) = false) :
    EdgeGridClient.new c = Except.error (EdgeGridError.MissingCredential (credFieldName i)) := by
  fin_cases i
  · simp only [credField] at h1
    simp [EdgeGridClient.new, credFieldName, h1]
  · have g0 := h2 0 (by decide)
    simp only [credField] at h1 g0
    simp [EdgeGridClient.new, credFieldName, h1, g0]
  · have g0 := h2 0 (by decide)
    have g1 := h2 1 (by decide)
    simp only [credField] at h1 g0 g1
    simp [EdgeGridClient.new, credFieldName, h1, g0, g1]
  · have g0 := h2 0 (by decide)
    have g1 := h2 1 (by decide)
    have g2 := h2 2 (by decide)
    simp only [credField] at h1 g0 g1 g2
    simp [EdgeGridClient.new, credFieldName, h1, g0, g1, g2]

/-- Witness for the C8 theorem: a whitespace-only `client_secret` among
otherwise present fields is reported as the missing credential. -/
theorem client_new_missing_credential_witness :
    EdgeGridClient.new ⟨"a", "  ", "c", "https://h", MAX_BODY, false, none⟩ =
      Except.error (EdgeGridError.MissingCredential "client_secret") :=
  client_new_missing_credential _ 1 (by decide) (by decide)

/-! ## C7: the timestamp format -/

theorem digitChar_mod_ten_ne_T (n : Nat) : (Nat.digitChar (n % 10) == 'T') = false := by
  have h : ∀ m, m < 10 → (Nat.digitChar m == 'T') = false := by decide
  exact h _ (Nat.mod_lt _ (by omega))

/-- C7 counterexample: at an instant in year 10000 (chrono represents
years up to 262143) the rendered year carries an explicit sign and five
digits, so the timestamp length is 24, not 22 — refuting "for every
instant". -/
theorem timestamp_year_10000_not_22 :
    ¬ (createTimestamp ⟨10000, 1, 1, 0, 0, 0⟩).length = 22 := by decide

/-- C7 amended: for every instant of a year up to 9999 (all instants a
real clock can produce for the better part of eight millennia), the
timestamp has length 22, contains exactly one `T` and ends with the
literal `+0000`. -/
theorem timestamp_format_bounded_year (t : UtcDateTime) (hv : t.valid)
    (hy : t.year ≤ 9999) :
    (createTimestamp t).length = 22 ∧
      (createTimestamp t).data.count 'T' = 1 ∧
      rEndsWith (createTimestamp t) "+0000" = true := by
  obtain ⟨hm1, hm2, hd1, hd2, hh, hmin, hs⟩ := hv
  have p2 : ∀ n : Nat, n < 100 →
      pad2 n = [Nat.digitChar (n / 10 % 10), Nat.digitChar (n % 10)] := by
    intro n h
    unfold pad2
    rw [if_pos h]
  unfold createTimestamp pad4Year
  rw [if_pos hy, p2 t.month (by omega), p2 t.day (by omega), p2 t.hour (by omega),
    p2 t.minute (by omega), p2 t.second (by omega)]
  refine ⟨?_, ?_, ?_⟩
  · show (_ : List Char).length = 22
    simp [List.length_append]
  · show (_ : List Char).count 'T' = 1
    simp [List.count_append, List.count_cons, digitChar_mod_ten_ne_T]
  · show ("+0000".data.isSuffixOf _) = true
    rw [List.isSuffixOf_iff_suffix]
    exact List.suffix_append _ _

/-- Witness for the C7 amended theorem, at 2024-01-15T10:30:00. -/
theorem timestamp_format_bounded_year_witness :
    UtcDateTime.valid ⟨2024, 1, 15, 10, 30, 0⟩ ∧
      ((createTimestamp ⟨2024, 1, 15, 10, 30, 0⟩).length = 22 ∧
        (createTimestamp ⟨2024, 1, 15, 10, 30, 0⟩).data.count 'T' = 1 ∧
        rEndsWith (createTimestamp ⟨2024, 1, 15, 10, 30, 0⟩) "+0000" = true) :=
  ⟨by decide, timestamp_format_bounded_year _ (by decide) (by decide)⟩

/-! ## C6: canonicalized headers and insertion order -/

theorem char_toNat_inj (a b : Char) (h : a.toNat = b.toNat) : a = b :=
  Char.ofNat_toNat a ▸ Char.ofNat_toNat b ▸ congrArg Char.ofNat h

theorem lexLe_total : ∀ as bs : List Char, lexLe as bs = true ∨ lexLe bs as = true
  | [], _ => Or.inl rfl
  | _ :: _, [] => Or.inr rfl
  | a :: as, b :: bs => by
    unfold lexLe
    rcases Nat.lt_trichotomy a.toNat b.toNat with h | h | h
    · left
      rw [if_pos h]
    · rw [if_neg (by omega), if_neg (by omega), if_neg (by omega), if_neg (by omega)]
      exact lexLe_total as bs
    · right
      rw [if_pos h]

theorem lexLe_trans : ∀ as bs cs : List Char,
    lexLe as bs = true → lexLe bs cs = true → lexLe as cs = true
  | [], _, _ => fun _ _ => rfl
  | a :: as, [], _ => fun h _ => by cases h
  | a :: as, b :: bs, [] => fun _ h => by cases h
  | a :: as, b :: bs, c :: cs => fun h1 h2 => by
    unfold lexLe at h1 h2 ⊢
    rcases Nat.lt_trichotomy a.toNat b.toNat with hab | hab | hab
    · rcases Nat.lt_trichotomy b.toNat c.toNat with hbc | hbc | hbc
      · rw [if_pos (by omega)]
      · rw [if_pos (by omega)]
      · rw [if_neg (by omega), if_pos (by omega)] at h2
        cases h2
    · rcases Nat.lt_trichotomy b.toNat c.toNat with hbc | hbc | hbc
      · rw [if_pos (by omega)]
      · rw [if_neg (by omega), if_neg (by omega)] at h1 h2 ⊢
        exact lexLe_trans as bs cs h1 h2
      · rw [if_neg (by omega), if_pos (by omega)] at h2
        cases h2
    · rw [if_neg (by omega), if_pos (by omega)] at h1
      cases h1

theorem lexLe_antisymm : ∀ as bs : List Char,
    lexLe as bs = true → lexLe bs as = true → as = bs
  | [], [] => fun _ _ => rfl
  | [], _ :: _ => fun _ h => by cases h
  | _ :: _, [] => fun h _ => by cases h
  | a :: as, b :: bs => fun h1 h2 => by
    unfold lexLe at h1 h2
    rcases Nat.lt_trichotomy a.toNat b.toNat with hab | hab | hab
    · rw [if_neg (by omega), if_pos (by omega)] at h2
      cases h2
    · rw [if_neg (by omega), if_neg (by omega)] at h1 h2
      rw [char_toNat_inj a b hab, lexLe_antisymm as bs h1 h2]
    · rw [if_neg (by omega), if_pos (by omega)] at h1
      cases h1

theorem stableInsert_perm {α : Type} (le : α → α → Bool) (a : α) :
    ∀ l : List α, (stableInsert le a l).Perm (a :: l)
  | [] => List.Perm.refl _
  | b :: l => by
    unfold stableInsert
    by_cases h : le b a = true
    · rw [if_pos h]
      exact ((stableInsert_perm le a l).cons b).trans (List.Perm.swap _ _ _)
    · rw [if_neg h]

theorem stableSort_aux_perm {α : Type} (le : α → α → Bool) :
    ∀ (l acc : List α), (l.foldl (fun acc a => stableInsert le a acc) acc).Perm (acc ++ l)
  | [], acc => by simp
  | a :: l, acc => by
    show (l.foldl _ (stableInsert le a acc)).Perm _
    refine (stableSort_aux_perm le l (stableInsert le a acc)).trans ?_
    refine (List.Perm.append_right l ((stableInsert_perm le a acc))).trans ?_
    exact List.perm_middle.symm

theorem stableSort_perm {α : Type} (le : α → α → Bool) (l : List α) :
    (stableSort le l).Perm l := by
  simpa using stableSort_aux_perm le l []

theorem mem_stableInsert {α : Type} (le : α → α → Bool) (a x : α) (l : List α) :
    x ∈ stableInsert le a l ↔ x = a ∨ x ∈ l := by
  rw [(stableInsert_perm le a l).mem_iff]
  simp

theorem pairwise_stableInsert {α : Type} (le : α → α → Bool)
    (htot : ∀ x y, le x y = true ∨ le y x = true)
    (htrans : ∀ x y z, le x y = true → le y z = true → le x z = true) (a : α) :
    ∀ l : List α, l.Pairwise (le · · = true) →
      (stableInsert le a l).Pairwise (le · · = true)
  | [], _ => by simp [stableInsert]
  | b :: l, h => by
    unfold stableInsert
    rcases List.pairwise_cons.1 h with ⟨hb, hl⟩
    by_cases hba : le b a = true
    · rw [if_pos hba]
      refine List.pairwise_cons.2 ⟨?_, pairwise_stableInsert le htot htrans a l hl⟩
      intro x hx
      rcases (mem_stableInsert le a x l).1 hx with hx | hx
      · rw [hx]
        exact hba
      · exact hb x hx
    · rw [if_neg hba]
      have hab : le a b = true := (htot a b).resolve_right (fun h0 => hba h0)
      refine List.pairwise_cons.2 ⟨?_, h⟩
      intro x hx
      rcases List.mem_cons.1 hx with hx | hx
      · rw [hx]
        exact hab
      · exact htrans a b x hab (hb x hx)

theorem pairwise_stableSort {α : Type} (le : α → α → Bool)
    (htot : ∀ x y, le x y = true ∨ le y x = true)
    (htrans : ∀ x y z, le x y = true → le y z = true → le x z = true) :
    ∀ (l acc : List α), acc.Pairwise (le · · = true) →
      (l.foldl (fun acc a => stableInsert le a acc) acc).Pairwise (le · · = true)
  | [], _, h => h
  | a :: l, acc, h =>
    pairwise_stableSort le htot htrans l (stableInsert le a acc)
      (pairwise_stableInsert le htot htrans a acc h)

/-- C6 counterexample: two header maps with the same set of entries — the
distinct names `A` and `a` collide after lower-casing — canonicalize
differently in the two insertion orders, because the stable sort keeps
equal keys in input order. -/
theorem canonicalize_headers_case_collision :
    ([("A", "1"), ("a", "2")] : List (String × String)).Perm [("a", "2"), ("A", "1")] ∧
      ¬ (EdgeGridAuth.new (EdgeGridConfig.new "t" "t" "t" "t")).canonicalizeHeaders
          [("A", "1"), ("a", "2")] =
        (EdgeGridAuth.new (EdgeGridConfig.new "t" "t" "t" "t")).canonicalizeHeaders
          [("a", "2"), ("A", "1")] := by
  constructor
  · decide
  · decide

/-- C6 amended: for header maps in which no two entries share the same
lower-cased name, the canonicalized output is invariant under permutation
of the entries; and the output is always the tab-joined rendering
`lowercased-name:trimmed-value` of a sorted-by-lower-cased-name
permutation of the input. -/
theorem canonicalize_headers_order_invariant (auth : EdgeGridAuth)
    (l₁ l₂ : List (String × String)) (hp : l₁.Perm l₂)
    (hd : (l₁.map (fun p => rToLower p.1)).Pairwise (fun a b => a ≠ b)) :
    auth.canonicalizeHeaders l₁ = auth.canonicalizeHeaders l₂ ∧
      ∃ sorted : List (String × String), sorted.Perm l₁ ∧
        sorted.Pairwise (fun p q => strLe (rToLower p.1) (rToLower q.1) = true) ∧
        auth.canonicalizeHeaders l₁ =
          String.intercalate "\t" (sorted.map (fun p => rToLower p.1 ++ ":" ++ rTrim p.2)) := by
  have htot : ∀ x y : String × String,
      strLe (rToLower x.1) (rToLower y.1) = true ∨ strLe (rToLower y.1) (rToLower x.1) = true :=
    fun x y => lexLe_total _ _
  have htrans : ∀ x y z : String × String,
      strLe (rToLower x.1) (rToLower y.1) = true → strLe (rToLower y.1) (rToLower z.1) = true →
        strLe (rToLower x.1) (rToLower z.1) = true :=
    fun x y z h1 h2 => lexLe_trans _ _ _ h1 h2
  set le : (String × String) → (String × String) → Bool :=
    fun a b => strLe (rToLower a.1) (rToLower b.1) with hle
  have hsort : stableSort le l₁ = stableSort le l₂ := by
    have hperm : (stableSort le l₁).Perm (stableSort le l₂) :=
      ((stableSort_perm le l₁).trans hp).trans (stableSort_perm le l₂).symm
    have hdist₁ : l₁.Pairwise (fun p q => rToLower p.1 ≠ rToLower q.1) :=
      List.pairwise_map.1 hd
    have hsym : ∀ {x y : String × String},
        rToLower x.1 ≠ rToLower y.1 → rToLower y.1 ≠ rToLower x.1 :=
      fun h => fun h0 => h h0.symm
    have hdists₁ : (stableSort le l₁).Pairwise (fun p q => rToLower p.1 ≠ rToLower q.1) :=
      ((stableSort_perm le l₁).pairwise_iff hsym).2 hdist₁
    have hdists₂ : (stableSort le l₂).Pairwise (fun p q => rToLower p.1 ≠ rToLower q.1) :=
      (((stableSort_perm le l₂).trans hp.symm).pairwise_iff hsym).2 hdist₁
    have hs₁ : (stableSort le l₁).Pairwise (le · · = true) :=
      pairwise_stableSort le htot htrans l₁ [] (List.Pairwise.nil)
    have hs₂ : (stableSort le l₂).Pairwise (le · · = true) :=
      pairwise_stableSort le htot htrans l₂ [] (List.Pairwise.nil)
    haveI : IsAntisymm (String × String)
        (fun p q => le p q = true ∧ rToLower p.1 ≠ rToLower q.1) := by
      constructor
      intro a b h1 h2
      exact absurd (String.ext (lexLe_antisymm _ _ h1.1 h2.1)) h1.2
    exact List.eq_of_perm_of_sorted hperm (hs₁.and hdists₁) (hs₂.and hdists₂)
  constructor
  · unfold EdgeGridAuth.canonicalizeHeaders
    rw [hsort]
  · refine ⟨stableSort le l₁, stableSort_perm le l₁, pairwise_stableSort le htot htrans l₁ [] List.Pairwise.nil, rfl⟩

/-- Witness for the C6 amended theorem, on two distinct lower-cased
names. -/
theorem canonicalize_headers_order_invariant_witness :
    ([("X-Test", "value1"), ("X-Another", "value2")] : List (String × String)).Perm
        [("X-Another", "value2"), ("X-Test", "value1")] ∧
      ((EdgeGridAuth.new (EdgeGridConfig.new "t" "t" "t" "t")).canonicalizeHeaders
          [("X-Test", "value1"), ("X-Another", "value2")] =
        (EdgeGridAuth.new (EdgeGridConfig.new "t" "t" "t" "t")).canonicalizeHeaders
          [("X-Another", "value2"), ("X-Test", "value1")] ∧
        ∃ sorted : List (String × String),
          sorted.Perm [("X-Test", "value1"), ("X-Another", "value2")] ∧
          sorted.Pairwise (fun p q => strLe (rToLower p.1) (rToLower q.1) = true) ∧
          (EdgeGridAuth.new (EdgeGridConfig.new "t" "t" "t" "t")).canonicalizeHeaders
            [("X-Test", "value1"), ("X-Another", "value2")] =
            String.intercalate "\t" (sorted.map (fun p => rToLower p.1 ++ ":" ++ rTrim p.2))) :=
  ⟨by decide,
    canonicalize_headers_order_invariant _ _ _ (by decide) (by decide)⟩

/-! ## C2: the string-to-sign and the final header value -/

/-- C2: the string-to-sign is exactly the seven tab-separated fields in
order — upper-cased method, scheme, host, path with `?query` appended
when a query is present, canonicalized headers, content hash, and the
auth-header prefix — and `create_auth_header` produces exactly that
prefix with `signature=` and the signature appended. -/
theorem string_to_sign_format (auth : EdgeGridAuth) (u : Url) (m : Method)
    (headersToSign : List (String × String)) (contentHash timestamp nonce : String) :
    (∀ path query : String,
      auth.buildDataToSign m.asStr u.scheme (u.host.getD "")
          (if query = "" then path else path ++ "?" ++ query)
          headersToSign contentHash timestamp nonce =
        rToUpper m.asStr ++ "\t" ++ u.scheme ++ "\t" ++ u.host.getD "" ++ "\t" ++
          (if query = "" then path else path ++ "?" ++ query) ++ "\t" ++
          auth.canonicalizeHeaders headersToSign ++ "\t" ++ contentHash ++ "\t" ++
          authHeaderBase auth.config timestamp nonce) ∧
    (∀ path : String,
      auth.createAuthHeader m.asStr u path headersToSign contentHash timestamp nonce =
        Except.map
          (fun signature =>
            authHeaderBase auth.config timestamp nonce ++ "signature=" ++ signature)
          (auth.signData
            (auth.buildDataToSign m.asStr u.scheme (u.host.getD "") path headersToSign
              contentHash timestamp nonce)
            (base64Encode (hmacSha256 (utf8Bytes auth.config.client_secret)
              (utf8Bytes timestamp))))) := by
  constructor
  · intro path query
    rfl
  · intro path
    simp only [EdgeGridAuth.createAuthHeader, EdgeGridAuth.createSigningKey]
    cases hsd : auth.signData
        (auth.buildDataToSign m.asStr u.scheme (u.host.getD "") path headersToSign
          contentHash timestamp nonce)
        (base64Encode (hmacSha256 (utf8Bytes auth.config.client_secret)
          (utf8Bytes timestamp))) with
    | error e => simp [Except.map]
    | ok signature =>
      simp only [Except.map, Except.ok.injEq]
      rw [show (";signature=" : String) = ";" ++ "signature=" by decide]
      simp [authHeaderBase, String.append_assoc]

/-! ## C1: sign_request can return success without attaching the header -/

/-- C1 (code-bug evidence): with a client token containing a newline, the
assembled Authorization value fails `HeaderValue` parsing, `sign_request`
silently skips the insertion (`if let Ok(..)`, auth.rs line 68) and still
returns success: the result is `Ok` with the request unchanged and no
Authorization header attached, contradicting "no outcome in which
sign_request returns success without the Authorization header having been
attached". -/
theorem sign_request_silent_header_drop :
    (EdgeGridAuth.new (EdgeGridConfig.new "x\ny" "s" "t" "h")).signRequest
        "20240101T00:00:00+0000" "8e844806-05b6-4b7c-a071-b71f68b668ba"
        ⟨Method.GET, ⟨"https", some "example.com", "/x", none⟩, [], none⟩ =
      Except.ok ⟨Method.GET, ⟨"https", some "example.com", "/x", none⟩, [], none⟩ := by
  decide

/-! ## C9: the .edgerc round trip -/

theorem mk_data (s : String) : String.mk s.data = s := rfl

theorem splitNl_cons_nl (rest : List Char) :
    splitNl ('\n' :: rest) = [] :: splitNl rest := by
  conv_lhs => unfold splitNl
  rw [if_pos rfl]

theorem splitNl_cons_ne (a : Char) (rest : List Char) (hne : ¬ a = '\n')
    (l : List Char) (ls : List (List Char)) (h : splitNl rest = l :: ls) :
    splitNl (a :: rest) = (a :: l) :: ls := by
  conv_lhs => unfold splitNl
  rw [if_neg hne, h]

theorem splitNl_no_newline (xs : List Char) (h : '\n' ∉ xs) : splitNl xs = [xs] := by
  induction xs with
  | nil => rfl
  | cons a xs ih =>
    exact splitNl_cons_ne a xs (fun h0 => h (List.mem_cons.2 (Or.inl h0.symm))) xs []
      (ih (fun h0 => h (List.mem_cons_of_mem a h0)))

theorem splitNl_append (xs ys : List Char) (h : '\n' ∉ xs) :
    splitNl (xs ++ '\n' :: ys) = xs :: splitNl ys := by
  induction xs with
  | nil =>
    rw [List.nil_append, splitNl_cons_nl]
  | cons a xs ih =>
    rw [List.cons_append]
    exact splitNl_cons_ne a _ (fun h0 => h (List.mem_cons.2 (Or.inl h0.symm))) xs
      (splitNl ys) (ih (fun h0 => h (List.mem_cons_of_mem a h0)))

theorem splitNl_joinNl : ∀ ls : List (List Char), ls ≠ [] → (∀ l ∈ ls, '\n' ∉ l) →
    splitNl (joinNl ls) = ls
  | [], h, _ => absurd rfl h
  | [l], _, hl => by
    show splitNl (joinNl [l]) = [l]
    unfold joinNl
    exact splitNl_no_newline l (hl l (List.mem_cons_self _ _))
  | l :: l' :: ls, _, hl => by
    show splitNl (l ++ '\n' :: joinNl (l' :: ls)) = l :: l' :: ls
    rw [splitNl_append _ _ (hl l (List.mem_cons_self _ _))]
    rw [splitNl_joinNl (l' :: ls) (by simp) (fun x hx => hl x (List.mem_cons_of_mem _ hx))]

theorem rustLines_joinNl (ls : List (List Char)) (h0 : ls ≠ [])
    (h1 : ∀ l ∈ ls, '\n' ∉ l) (h2 : ls.getLast? ≠ some [])
    (h3 : ∀ l ∈ ls, l.getLast? ≠ some '\r') :
    rustLines (String.mk (joinNl ls)) = ls.map String.mk := by
  unfold rustLines
  rw [show (String.mk (joinNl ls)).data = joinNl ls from rfl, splitNl_joinNl ls h0 h1]
  simp only []
  rw [if_neg h2]
  exact List.map_congr_left (fun l hl => by rw [if_neg (h3 l hl)])

theorem head_not_isWs_of_dropWhile (a : Char) (l : List Char)
    (h : (a :: l).dropWhile isWs = a :: l) : isWs a = false := by
  by_cases hws : isWs a = true
  · rw [List.dropWhile_cons, if_pos hws] at h
    have hlen := congrArg List.length h
    have hle := (List.dropWhile_suffix (l := l) isWs).length_le
    simp only [List.length_cons] at hlen
    omega
  · simpa using hws

theorem dropWhile_isWs_of_head (cs : List Char)
    (h : ∀ c, cs.head? = some c → isWs c = false) : cs.dropWhile isWs = cs := by
  cases cs with
  | nil => rfl
  | cons a l => rw [List.dropWhile_cons, if_neg (by simp [h a rfl])]

theorem revDropWhile_isWs_of_getLast (cs : List Char)
    (h : ∀ c, cs.getLast? = some c → isWs c = false) :
    cs.reverse.dropWhile isWs = cs.reverse := by
  apply dropWhile_isWs_of_head
  intro c hc
  rw [List.head?_reverse] at hc
  exact h c hc

theorem trimChars_fix (cs : List Char)
    (h1 : ∀ c, cs.head? = some c → isWs c = false)
    (h2 : ∀ c, cs.getLast? = some c → isWs c = false) : trimChars cs = cs := by
  unfold trimChars
  rw [dropWhile_isWs_of_head cs h1, revDropWhile_isWs_of_getLast cs h2,
    List.reverse_reverse]

theorem fieldRoundtrips_parts (v : String) (h : fieldRoundtrips v = true) :
    v.data ≠ [] ∧
      (∀ c, v.data.head? = some c → isWs c = false) ∧
      (∀ c, v.data.getLast? = some c → isWs c = false) ∧
      (∀ c ∈ v.data, c ≠ '\n' ∧ c ≠ '\r' ∧ c ≠ ';') ∧
      ((startsWithChar v '"' && endsWithChar v '"')
        || (startsWithChar v '\'' && endsWithChar v '\'')) = false := by
  unfold fieldRoundtrips at h
  simp only [Bool.and_eq_true, Bool.not_eq_true'] at h
  obtain ⟨⟨⟨⟨h1, h2⟩, h3⟩, h4⟩, h5⟩ := h
  refine ⟨by simpa using h1, ?_, ?_, ?_, h5⟩
  · intro c hc
    rw [hc] at h2
    simpa using h2
  · intro c hc
    rw [hc] at h3
    simpa using h3
  · intro c hc
    have := List.all_eq_true.1 h4 c hc
    simpa [and_assoc] using this

theorem processLine_kv (st : ParseState) (kname line v : String)
    (hl : line.data = kname.data ++ ' ' :: '=' :: ' ' :: v.data)
    (hk0 : kname.data ≠ [])
    (hkdw : kname.data.dropWhile isWs = kname.data)
    (hkrdw : kname.data.reverse.dropWhile isWs = kname.data.reverse)
    (hkfind : List.findIdx? (fun c => c = '=') kname.data = none)
    (hkh : kname.data.head?.all (fun ch => ch ≠ ';' && ch ≠ '#' && ch ≠ '[') = true)
    (hkmb : kname ≠ "max-body")
    (hv : fieldRoundtrips v = true) :
    processLine st line =
      { st with currentConfig := insertKV st.currentConfig kname v } := by
  obtain ⟨hv0, hvh, hvl, hvmem, hvq⟩ := fieldRoundtrips_parts v hv
  rcases hkd : kname.data with _ | ⟨k0, kr⟩
  · exact absurd hkd hk0
  have hz : ∃ z, v.data.getLast? = some z := by
    rcases h0 : v.data.getLast? with _ | z
    · rw [List.getLast?_eq_none_iff] at h0
      exact absurd h0 hv0
    · exact ⟨z, rfl⟩
  obtain ⟨z, hz⟩ := hz
  have hk0ws : isWs k0 = false := by
    apply head_not_isWs_of_dropWhile k0 kr
    rw [← hkd]
    exact hkdw
  have hlhead : line.data.head? = some k0 := by
    rw [hl, hkd]
    rfl
  have hllast : line.data.getLast? = some z := by
    rw [hl,
      show kname.data ++ ' ' :: '=' :: ' ' :: v.data =
        (kname.data ++ [' ', '=', ' ']) ++ v.data by simp,
      List.getLast?_append, hz]
    rfl
  have hlineq : trimChars line.data = line.data := by
    apply trimChars_fix
    · intro ch hch
      rw [hlhead] at hch
      injection hch with hch
      rw [← hch]
      exact hk0ws
    · intro ch hch
      rw [hllast] at hch
      injection hch with hch
      rw [← hch]
      exact hvl z hz
  have htrim : rTrim line = line := by
    unfold rTrim
    rw [hlineq]
  have hkh3 : (¬ k0 = ';' ∧ ¬ k0 = '#') ∧ ¬ k0 = '[' := by
    rw [hkd] at hkh
    simpa using hkh
  have hne : decide (line.data = []) = false := by
    rw [decide_eq_false_iff_not, hl, hkd]
    simp
  have hstart : ∀ c : Char, startsWithChar line c = decide (k0 = c) := by
    intro c
    unfold startsWithChar
    rw [hl, hkd]
    rfl
  have hfind : findIdxChar line '=' = some (kname.data.length + 1) := by
    unfold findIdxChar
    rw [hl, List.findIdx?_append, hkfind]
    simp [List.findIdx?_cons, Nat.add_comm]
  have hkey : rTrim (String.mk (line.data.take (kname.data.length + 1))) = kname := by
    rw [hl, List.take_append 1,
      show List.take 1 (' ' :: '=' :: ' ' :: v.data) = [' '] from rfl]
    unfold rTrim
    show String.mk (trimChars (kname.data ++ [' '])) = kname
    unfold trimChars
    rw [List.dropWhile_append, hkdw, if_neg (by simp [hkd]), List.reverse_append,
      show ([' '] : List Char).reverse = [' '] from rfl]
    rw [show ([' '] : List Char) ++ kname.data.reverse = ' ' :: kname.data.reverse from rfl]
    rw [List.dropWhile_cons, if_pos (by rfl), hkrdw, List.reverse_reverse]
  have hval : parseValue (String.mk (line.data.drop (kname.data.length + 1 + 1))) = v := by
    rw [hl, show kname.data.length + 1 + 1 = kname.data.length + 2 from rfl,
      List.drop_append 2,
      show List.drop 2 (' ' :: '=' :: ' ' :: v.data) = ' ' :: v.data from rfl]
    unfold parseValue
    have htr : rTrim (String.mk (' ' :: v.data)) = v := by
      unfold rTrim
      show String.mk (trimChars (' ' :: v.data)) = v
      unfold trimChars
      rw [List.dropWhile_cons, if_pos (by rfl), dropWhile_isWs_of_head v.data hvh,
        revDropWhile_isWs_of_getLast v.data hvl, List.reverse_reverse]
    simp only []
    rw [htr, if_neg (by simp [hvq])]
    have hsemi : findIdxChar v ';' = none := by
      unfold findIdxChar
      rw [List.findIdx?_eq_none_iff]
      intro x hx
      simpa using (hvmem x hx).2.2
    rw [hsemi]
  unfold processLine
  simp only []
  rw [htrim]
  rw [if_neg (by
    simp only [Bool.or_eq_true, hne, hstart, decide_eq_true_eq]
    rintro ((h0 | h0) | h0)
    · cases h0
    · exact hkh3.1.1 h0
    · exact hkh3.1.2 h0)]
  rw [if_neg (by
    simp only [Bool.and_eq_true, hstart, decide_eq_true_eq]
    rintro ⟨h0, _⟩
    exact hkh3.2 h0)]
  rw [hfind]
  simp only []
  rw [hkey, hval, if_neg hkmb]

theorem data_append_kv (pre v : String) (kd : List Char)
    (h : pre.data = kd ++ [' ', '=', ' ']) :
    (pre ++ v).data = kd ++ ' ' :: '=' :: ' ' :: v.data := by
  rw [String.data_append, h, List.append_assoc]
  try rfl

theorem trimIsEmpty_false_of_roundtrips (s : String) (hs : fieldRoundtrips s = true) :
    trimIsEmpty s = false := by
  obtain ⟨h0, h1, h2, -, -⟩ := fieldRoundtrips_parts s hs
  unfold trimIsEmpty
  rw [decide_eq_false_iff_not, trimChars_fix s.data h1 h2]
  exact h0

theorem kv_line_last (pre v : String) (hv : fieldRoundtrips v = true) :
    ∃ z, (pre ++ v).data.getLast? = some z ∧ isWs z = false := by
  obtain ⟨hv0, -, hvl, -, -⟩ := fieldRoundtrips_parts v hv
  rcases h0 : v.data.getLast? with _ | z
  · rw [List.getLast?_eq_none_iff] at h0
    exact absurd h0 hv0
  · refine ⟨z, ?_, hvl z h0⟩
    rw [String.data_append, List.getLast?_append, h0]
    rfl

theorem kv_line_no_newline (pre v : String) (hv : fieldRoundtrips v = true)
    (hpre : '\n' ∉ pre.data) : '\n' ∉ (pre ++ v).data := by
  obtain ⟨-, -, -, hvm, -⟩ := fieldRoundtrips_parts v hv
  rw [String.data_append]
  intro hmem
  rcases List.mem_append.1 hmem with h0 | h0
  · exact hpre h0
  · exact (hvm _ h0).1 rfl

/-- C9 counterexample: the config with host `https://h/` satisfies the
spec's credential invariant, yet the round trip re-derives host
`https://h` — `validate_config` pops the trailing slash when the rendered
section is parsed back. -/
theorem edgerc_roundtrip_trailing_slash :
    ((parseEdgerc (renderEdgerc "default"
          ⟨"a", "b", "c", "https://h/", MAX_BODY, false, none⟩)).toOption.bind
        (fun sections => sections.lookup "default")).map EdgeGridConfig.host =
      some "https://h" ∧ ("https://h/" : String) ≠ "https://h" := by
  constructor
  · decide
  · decide

/-- C9 amended: for a config whose four core fields are nonempty, carry no
surrounding whitespace, contain no newline, carriage return or semicolon,
are not wrapped in matching quotes, and whose host starts with `https://`
and has no trailing slash, parsing the rendered `.edgerc` section yields a
config whose four core fields equal the originals. -/
theorem edgerc_roundtrip (c : EdgeGridConfig)
    (hct : fieldRoundtrips c.client_token = true)
    (hcs : fieldRoundtrips c.client_secret = true)
    (hak : fieldRoundtrips c.access_token = true)
    (hh : fieldRoundtrips c.host = true)
    (hhs : rStartsWith c.host "https://" = true)
    (hsl : endsWithChar c.host '/' = false) :
    ∃ c' : EdgeGridConfig,
      (parseEdgerc (renderEdgerc "default" c)).toOption.bind
          (fun sections => sections.lookup "default") = some c' ∧
        c'.client_token = c.client_token ∧ c'.client_secret = c.client_secret ∧
        c'.access_token = c.access_token ∧ c'.host = c.host := by
  have hlines : rustLines (renderEdgerc "default" c) =
      ["[default]", "client_token = " ++ c.client_token,
       "client_secret = " ++ c.client_secret, "access_token = " ++ c.access_token,
       "host = " ++ c.host] := by
    unfold renderEdgerc
    rw [rustLines_joinNl _ (by simp) ?hnl ?hlast ?hcr]
    case hnl =>
      intro l hlmem
      simp only [List.mem_cons, List.not_mem_nil, or_false] at hlmem
      rcases hlmem with h0 | h0 | h0 | h0 | h0 <;> rw [h0]
      · decide
      · exact kv_line_no_newline _ _ hct (by decide)
      · exact kv_line_no_newline _ _ hcs (by decide)
      · exact kv_line_no_newline _ _ hak (by decide)
      · exact kv_line_no_newline _ _ hh (by decide)
    case hlast =>
      obtain ⟨z, hz, -⟩ := kv_line_last "host = " c.host hh
      show (some (("host = " ++ c.host).data) ≠ some [])
      intro h0
      injection h0 with h0
      rw [h0] at hz
      cases hz
    case hcr =>
      intro l hlmem
      simp only [List.mem_cons, List.not_mem_nil, or_false] at hlmem
      rcases hlmem with h0 | h0 | h0 | h0 | h0 <;> rw [h0]
      · decide
      · obtain ⟨z, hz, hzw⟩ := kv_line_last "client_token = " c.client_token hct
        rw [hz]
        intro h1
        injection h1 with h1
        rw [h1] at hzw
        cases hzw
      · obtain ⟨z, hz, hzw⟩ := kv_line_last "client_secret = " c.client_secret hcs
        rw [hz]
        intro h1
        injection h1 with h1
        rw [h1] at hzw
        cases hzw
      · obtain ⟨z, hz, hzw⟩ := kv_line_last "access_token = " c.access_token hak
        rw [hz]
        intro h1
        injection h1 with h1
        rw [h1] at hzw
        cases hzw
      · obtain ⟨z, hz, hzw⟩ := kv_line_last "host = " c.host hh
        rw [hz]
        intro h1
        injection h1 with h1
        rw [h1] at hzw
        cases hzw
    · rfl
  have hct_step : ∀ st : ParseState,
      processLine st ("client_token = " ++ c.client_token) =
        { st with currentConfig := insertKV st.currentConfig "client_token" c.client_token } :=
    fun st => processLine_kv st "client_token" _ _ (data_append_kv _ _ _ (by decide))
      (by decide) (by decide) (by decide) (by decide) (by decide) (by decide) hct
  have hcs_step : ∀ st : ParseState,
      processLine st ("client_secret = " ++ c.client_secret) =
        { st with currentConfig := insertKV st.currentConfig "client_secret" c.client_secret } :=
    fun st => processLine_kv st "client_secret" _ _ (data_append_kv _ _ _ (by decide))
      (by decide) (by decide) (by decide) (by decide) (by decide) (by decide) hcs
  have hak_step : ∀ st : ParseState,
      processLine st ("access_token = " ++ c.access_token) =
        { st with currentConfig := insertKV st.currentConfig "access_token" c.access_token } :=
    fun st => processLine_kv st "access_token" _ _ (data_append_kv _ _ _ (by decide))
      (by decide) (by decide) (by decide) (by decide) (by decide) (by decide) hak
  have hh_step : ∀ st : ParseState,
      processLine st ("host = " ++ c.host) =
        { st with currentConfig := insertKV st.currentConfig "host" c.host } :=
    fun st => processLine_kv st "host" _ _ (data_append_kv _ _ _ (by decide))
      (by decide) (by decide) (by decide) (by decide) (by decide) (by decide) hh
  have hst1 : processLine ⟨[], none, []⟩ "[default]" = ⟨[], some "default", []⟩ := by
    decide
  have hfold : (rustLines (renderEdgerc "default" c)).foldl processLine ⟨[], none, []⟩ =
      ⟨[], some "default",
        insertKV (insertKV (insertKV (insertKV [] "client_token" c.client_token)
          "client_secret" c.client_secret) "access_token" c.access_token) "host" c.host⟩ := by
    rw [hlines]
    simp only [List.foldl_cons, List.foldl_nil]
    rw [hst1, hct_step, hcs_step, hak_step, hh_step]
  have hlist : insertKV (insertKV (insertKV (insertKV [] "client_token" c.client_token)
      "client_secret" c.client_secret) "access_token" c.access_token) "host" c.host =
      [("host", c.host), ("access_token", c.access_token),
       ("client_secret", c.client_secret), ("client_token", c.client_token)] := by
    simp [insertKV]
  have hsec : parseSectionConfig
      (insertKV (insertKV (insertKV (insertKV [] "client_token" c.client_token)
        "client_secret" c.client_secret) "access_token" c.access_token) "host" c.host) =
      Except.ok ⟨c.client_token, c.client_secret, c.access_token, c.host,
        MAX_BODY, false, none⟩ := by
    have lk1 : List.lookup "client_token"
        [("host", c.host), ("access_token", c.access_token),
         ("client_secret", c.client_secret), ("client_token", c.client_token)] =
        some c.client_token := by simp [List.lookup]
    have lk2 : List.lookup "client_secret"
        [("host", c.host), ("access_token", c.access_token),
         ("client_secret", c.client_secret), ("client_token", c.client_token)] =
        some c.client_secret := by simp [List.lookup]
    have lk3 : List.lookup "access_token"
        [("host", c.host), ("access_token", c.access_token),
         ("client_secret", c.client_secret), ("client_token", c.client_token)] =
        some c.access_token := by simp [List.lookup]
    have lk4 : List.lookup "host"
        [("host", c.host), ("access_token", c.access_token),
         ("client_secret", c.client_secret), ("client_token", c.client_token)] =
        some c.host := by simp [List.lookup]
    have lk5 : List.lookup "max_body"
        [("host", c.host), ("access_token", c.access_token),
         ("client_secret", c.client_secret), ("client_token", c.client_token)] =
        (none : Option String) := by simp [List.lookup]
    have lk6 : List.lookup "account_switch_key"
        [("host", c.host), ("access_token", c.access_token),
         ("client_secret", c.client_secret), ("client_token", c.client_token)] =
        (none : Option String) := by simp [List.lookup]
    unfold parseSectionConfig
    rw [hlist, lk1, lk2, lk3, lk4, lk5, lk6]
    simp only [Option.getD_some, Option.getD_none, Option.none_bind]
    unfold validateConfig
    rw [if_neg (by simp [trimIsEmpty_false_of_roundtrips _ hct]),
      if_neg (by simp [trimIsEmpty_false_of_roundtrips _ hcs]),
      if_neg (by simp [trimIsEmpty_false_of_roundtrips _ hak]),
      if_neg (by simp [trimIsEmpty_false_of_roundtrips _ hh])]
    simp only [hhs, hsl, Bool.not_true, Bool.false_eq_true, if_false]
  refine ⟨⟨c.client_token, c.client_secret, c.access_token, c.host, MAX_BODY, false, none⟩,
    ?_, rfl, rfl, rfl, rfl⟩
  unfold parseEdgerc
  simp only []
  rw [hfold]
  unfold saveSection
  simp only []
  rw [hsec]
  rw [if_neg (by simp [insertKV])]
  simp [insertKV, Except.toOption, List.lookup]

/-- Witness for the C9 amended theorem at a concrete config. -/
theorem edgerc_roundtrip_witness :
    ∃ c' : EdgeGridConfig,
      (parseEdgerc (renderEdgerc "default"
            ⟨"ct1", "cs1", "at1", "https://h.example", MAX_BODY, false, none⟩)).toOption.bind
          (fun sections => sections.lookup "default") = some c' ∧
        c'.client_token = "ct1" ∧ c'.client_secret = "cs1" ∧
        c'.access_token = "at1" ∧ c'.host = "https://h.example" :=
  edgerc_roundtrip ⟨"ct1", "cs1", "at1", "https://h.example", MAX_BODY, false, none⟩
    (by decide) (by decide) (by decide) (by decide) (by decide) (by decide)

/-- FIPS 180-4 test vector for the message `abc`, anchoring the embedded
SHA-256. -/
theorem sha256_abc_vector : sha256 [97, 98, 99] =
    [0xba, 0x78, 0x16, 0xbf, 0x8f, 0x01, 0xcf, 0xea,
     0x41, 0x41, 0x40, 0xde, 0x5d, 0xae, 0x22, 0x23,
     0xb0, 0x03, 0x61, 0xa3, 0x96, 0x17, 0x7a, 0x9c,
     0xb4, 0x10, 0xff, 0x61, 0xf2, 0x00, 0x15, 0xad] := by
  decide

/-- Base64 round trip on a sample byte list, anchoring the embedded
codec. -/
theorem base64_roundtrip_example :
    base64Decode (base64Encode [1, 2, 3, 4]) = some [1, 2, 3, 4] := by decide

end EdgeGrid
